import Mathlib

/-!
Verification of the agent orchestration core of the `coding_agent` repository.

The Python sources are shallowly embedded as executable Lean definitions:

* `src/coding_agent/core/state.py`    → `TaskStatus`, `Task`, `AgentState` and its accessor
  operations (`add_task`, `update_task_status`, `get_pending_tasks`, `mark_complete`).
* `src/coding_agent/core/loop.py`     → `determine_next_action`, `apply_result`, `run_loop`
  (the `while` loop is given explicit fuel; Python exceptions from an action's `execute`
  become the `ExecOutcome.exn` constructor; the behaviour of the action objects is an
  oracle parameter, indexed by dispatch count so stateful actions are covered).
* `src/coding_agent/tools/llm_client.py` → `process_tool_blocks`, `generate_with_tools_aux`,
  `generate_with_tools` (the Anthropic messages endpoint is an oracle from the transcript
  to a response; `generate_with_tools_aux` additionally counts engine calls).
* `src/coding_agent/tools/tool_executor.py` → `execute_code_runner` (file-system and
  subprocess effects are oracles; the returned list records ephemeral files left on disk).
* `src/coding_agent/tools/web_crawler.py` → `fetch_multiple` (per-URL fetch is an oracle;
  Python `dict` assignment is modelled by `dictSet`).

Python `dict[str, v]` values are association lists with first-match replacement, which
matches CPython insertion-order semantics for the operations used by the sources.
-/

namespace CodingAgent

/-- Python dict assignment `d[k] = v`: replace the value at an existing key in place,
otherwise append the new binding at the end (CPython insertion-order semantics). -/
def dictSet {α : Type} (d : List (String × α)) (k : String) (v : α) : List (String × α) :=
  match d with
  | [] => [(k, v)]
  | (k', v') :: rest => if k' = k then (k, v) :: rest else (k', v') :: dictSet rest k v

/-- Python dict read `d.get(k)`: first binding wins. -/
def dictGet {α : Type} (d : List (String × α)) (k : String) : Option α :=
  match d with
  | [] => none
  | (k', v) :: rest => if k' = k then some v else dictGet rest k

/-- Values stored in the open `context` mapping of the agent state (`Dict[str, Any]` in
Python).  `boolV`/`strV` cover the booleans and strings the loop reads back; `dataV`
stands for any other payload (search-result lists, summaries), tagged for distinctness. -/
inductive CtxVal where
  | boolV (b : Bool)
  | strV (s : String)
  | dataV (tag : String)
deriving DecidableEq, Repr

/-- Python truthiness of `context.get(k)`: `None` and `False` and `""` are falsy; any
other payload stored by the code (nonempty string, `True`, lists it stores) is truthy
except that we keep `dataV` always truthy, matching the payloads the loop stores. -/
def truthy : Option CtxVal → Bool
  | none => false
  | some (.boolV b) => b
  | some (.strV s) => s != ""
  | some (.dataV _) => true

/-- Python truthiness of an `Optional[str]` field: `None` and `""` are falsy. -/
def optStrTruthy : Option String → Bool
  | none => false
  | some s => s != ""

/-- TaskStatus enumeration from `core/state.py`. -/
inductive TaskStatus where
  | pending
  | in_progress
  | completed
  | failed
deriving DecidableEq, Repr

/-- Task model from `core/state.py`. -/
structure Task where
  id : String
  content : String
  status : TaskStatus := .pending
  priority : String := "high"
  metadata : Option (List (String × CtxVal)) := none
deriving DecidableEq, Repr

/-- AgentState from `core/state.py`. -/
structure AgentState where
  user_request : String
  todo_list : List Task := []
  analysis : Option String := none
  generated_code : Option String := none
  current_step : String := "start"
  context : List (String × CtxVal) := []
  is_complete : Bool := false
deriving DecidableEq, Repr

/-- AgentState.add_task. -/
def add_task (s : AgentState) (t : Task) : AgentState :=
  { s with todo_list := s.todo_list ++ [t] }

/-- The loop body of AgentState.update_task_status: set the status of the first task
whose id matches, leave everything else unchanged (`break` after the first match). -/
def set_status_first (l : List Task) (task_id : String) (status : TaskStatus) : List Task :=
  match l with
  | [] => []
  | t :: rest =>
    if t.id = task_id then { t with status := status } :: rest
    else t :: set_status_first rest task_id status

/-- AgentState.update_task_status. -/
def update_task_status (s : AgentState) (task_id : String) (status : TaskStatus) : AgentState :=
  { s with todo_list := set_status_first s.todo_list task_id status }

/-- AgentState.get_pending_tasks. -/
def get_pending_tasks (s : AgentState) : List Task :=
  s.todo_list.filter (fun task => decide (task.status = TaskStatus.pending))

/-- AgentState.mark_complete. -/
def mark_complete (s : AgentState) : AgentState :=
  { s with is_complete := true }

/-- The fresh state built at the top of AgenticLoop.run. -/
def init_state (user_request : String) : AgentState :=
  { user_request := user_request }

/-- Names of the four registered actions of AgenticLoop. -/
inductive ActionName where
  | analyze_requirement
  | create_todo
  | generate_code
  | web_search
deriving DecidableEq, Repr

/-- The result mapping returned by an action's `execute`, restricted to the keys that
AgenticLoop.run reads back ("analysis", "todo_list", "code", "search_results",
"search_performed", "summary"); `none` models key absence. -/
structure ActionResult where
  analysis : Option String := none
  todo_list : Option (List Task) := none
  code : Option String := none
  search_results : Option CtxVal := none
  search_performed : Option CtxVal := none
  summary : Option CtxVal := none
deriving DecidableEq, Repr

/-- Outcome of running an action's `execute`: a result mapping, or a raised exception
carrying `str(e)`. -/
inductive ExecOutcome where
  | ok (r : ActionResult)
  | exn (msg : String)
deriving DecidableEq, Repr

/-- AgenticLoop._determine_next_action.  It may itself mutate the state
(`state.mark_complete()` in the all-done branch), so it returns the possibly updated
state together with the chosen action. -/
def determine_next_action (enable_web_search : Bool) (s : AgentState) :
    AgentState × ActionName :=
  if !optStrTruthy s.analysis && (s.current_step == "start") then
    if enable_web_search && !truthy (dictGet s.context "search_performed") then
      (s, .web_search)
    else
      (s, .analyze_requirement)
  else if s.todo_list.isEmpty && optStrTruthy s.analysis then
    (s, .create_todo)
  else if !(get_pending_tasks s).isEmpty && !optStrTruthy s.generated_code then
    if enable_web_search && (s.current_step == "planned") then
      (s, .web_search)
    else
      (s, .generate_code)
  else if (get_pending_tasks s).isEmpty || optStrTruthy s.generated_code then
    (mark_complete s, .analyze_requirement)
  else
    (s, .analyze_requirement)

/-- The `for task in state.todo_list: state.update_task_status(task.id, COMPLETED)`
loop of AgenticLoop.run: fold the status update over the ids present when the loop
starts (status writes do not change ids, so this is the exact iteration). -/
def mark_tasks_completed (s : AgentState) : AgentState :=
  (s.todo_list.map Task.id).foldl
    (fun acc task_id => update_task_status acc task_id TaskStatus.completed) s

/-- The state-merging block of AgenticLoop.run, applied after a successful
`action.execute`: each key present in the result mapping is folded into the state in
source order. -/
def apply_result (s : AgentState) (r : ActionResult) : AgentState :=
  let s1 := match r.analysis with
    | some a => { s with analysis := some a, current_step := "analyzed" }
    | none => s
  let s2 := match r.todo_list with
    | some ts => { s1 with todo_list := s1.todo_list ++ ts, current_step := "planned" }
    | none => s1
  let s3 := match r.code with
    | some c =>
      mark_tasks_completed { s2 with generated_code := some c, current_step := "completed" }
    | none => s2
  match r.search_results with
  | some payload =>
    let ctx1 := dictSet s3.context "search_results" payload
    let ctx2 := dictSet ctx1 "search_performed" (r.search_performed.getD (.boolV false))
    let ctx3 := match r.summary with
      | some sm => dictSet ctx2 "search_summary" sm
      | none => ctx2
    { s3 with context := ctx3 }
  | none => s3

/-- The `while not state.is_complete` loop of AgenticLoop.run, with explicit fuel (the
Python loop has no bound of its own).  `acts` is the behaviour of the registered action
objects, indexed by dispatch count so stateful actions are covered; `can_execute` is the
`BaseAction` default (always true, no registered action overrides it) and is therefore
elided.  On `exn e` the loop stores `str(e)` under the "error" context key, marks the
state complete and stops — the source's `except` branch. -/
def run_loop (enable_web_search : Bool)
    (acts : Nat → ActionName → AgentState → ExecOutcome) :
    Nat → Nat → AgentState → AgentState
  | 0, _, s => s
  | fuel + 1, k, s =>
    if s.is_complete then s
    else
      let p := determine_next_action enable_web_search s
      match acts k p.2 p.1 with
      | .exn e =>
        { p.1 with context := dictSet p.1.context "error" (.strV e), is_complete := true }
      | .ok r => run_loop enable_web_search acts fuel (k + 1) (apply_result p.1 r)

/-- A content block of an engine response (`tools/llm_client.py`): either a text block
or a tool-use request carrying invocation id, tool name and input.  Tool inputs and
results are kept abstract as strings (a tool whose result is not already a string is
serialized before entering the transcript; the serialized form is what we carry). -/
inductive ContentBlock where
  | text (s : String)
  | tool_use (id : String) (name : String) (input : String)
deriving DecidableEq, Repr

/-- One entry of the synthetic tool-result turn sent back to the engine
(`{"type": "tool_result", "tool_use_id": ..., "content": ..., "is_error": ...}`;
the source omits the `is_error` key on success, modelled as `false`). -/
structure ToolResultEntry where
  tool_use_id : String
  content : String
  is_error : Bool
deriving DecidableEq, Repr

/-- One entry of the `tool_calls_made` accumulator. -/
structure ToolCallRecord where
  name : String
  input : String
  result : String
deriving DecidableEq, Repr

/-- An engine response: `stop_reason` plus content blocks. -/
structure EngineResponse where
  stop_reason : String
  content : List ContentBlock
deriving DecidableEq, Repr

/-- Content of a transcript message: the caller's plain-text prompt, an assistant
tool-request turn (`response.content`), or a synthetic tool-result turn. -/
inductive MsgContent where
  | ofText (s : String)
  | ofBlocks (bs : List ContentBlock)
  | ofResults (rs : List ToolResultEntry)
deriving DecidableEq, Repr

/-- A transcript message with its role. -/
structure Message where
  role : String
  content : MsgContent
deriving DecidableEq, Repr

/-- Outcome of `_execute_tool` on one invocation: a result, or a raised exception
carrying `str(e)` (an unregistered tool name raises `ValueError`, covered here). -/
inductive ToolOutcome where
  | ok (r : String)
  | exn (msg : String)
deriving DecidableEq, Repr

/-- The `for content_block in response.content` loop of `generate_with_tools`: walk the
blocks in order; on each tool-use block run the tool, appending a success record to
`tool_calls_made` and a result entry to `tool_results`, or — if the execution raises —
only an error-flagged result entry; text blocks are skipped by the `type` check. -/
def process_tool_blocks (execTool : String → String → ToolOutcome) :
    List ContentBlock → List ToolCallRecord → List ToolResultEntry →
    List ToolCallRecord × List ToolResultEntry
  | [], made, results => (made, results)
  | .text _ :: rest, made, results => process_tool_blocks execTool rest made results
  | .tool_use id name input :: rest, made, results =>
    match execTool name input with
    | .ok r =>
      process_tool_blocks execTool rest (made ++ [⟨name, input, r⟩]) (results ++ [⟨id, r, false⟩])
    | .exn e =>
      process_tool_blocks execTool rest made
        (results ++ [⟨id, "Error executing tool: " ++ e, true⟩])

/-- The final-answer concatenation of `generate_with_tools`: join the `text` attribute of
every block that has one (tool-use blocks have none). -/
def concat_text : List ContentBlock → String
  | [] => ""
  | .text s :: rest => s ++ concat_text rest
  | .tool_use _ _ _ :: rest => concat_text rest

/-- The dictionary returned by `generate_with_tools`. -/
structure GenResult where
  content : String
  tool_calls : List ToolCallRecord
  stop_reason : String
deriving DecidableEq, Repr

/-- The `for iteration in range(max_iterations)` loop of `generate_with_tools`, with the
engine (`client.messages.create`) as an oracle from the transcript to a response.  The
second component of the result counts engine calls made.  A `tool_use` stop reason
processes the blocks and recurses on the grown transcript; any other stop reason returns
the concatenated text, the accumulated records and the response's own stop reason; an
exhausted budget returns the budget marker with stop reason "max_iterations". -/
def generate_with_tools_aux (engine : List Message → EngineResponse)
    (execTool : String → String → ToolOutcome) :
    Nat → List Message → List ToolCallRecord → GenResult × Nat
  | 0, _, made => (⟨"Maximum tool use iterations reached", made, "max_iterations"⟩, 0)
  | n + 1, conv, made =>
    let resp := engine conv
    if resp.stop_reason == "tool_use" then
      let pr := process_tool_blocks execTool resp.content made []
      let next := generate_with_tools_aux engine execTool n
        (conv ++ [⟨"assistant", .ofBlocks resp.content⟩, ⟨"user", .ofResults pr.2⟩]) pr.1
      (next.1, next.2 + 1)
    else
      (⟨concat_text resp.content, made, resp.stop_reason⟩, 1)

/-- AnthropicClient.generate_with_tools: run the turn loop on a copy of the caller's
messages with an empty accumulator. -/
def generate_with_tools (engine : List Message → EngineResponse)
    (execTool : String → String → ToolOutcome) (max_iterations : Nat)
    (messages : List Message) : GenResult :=
  (generate_with_tools_aux engine execTool max_iterations messages []).1

/-- Outcome of the ephemeral-file creation step of `execute_code_runner`
(`tempfile.NamedTemporaryFile(delete=False)` plus `f.write`): the file is written, or
the write raises after the file was created on disk, or opening itself raises before
any file exists. -/
inductive WriteOutcome where
  | written (fname : String)
  | raisedAfterCreate (fname : String) (msg : String)
  | raisedBeforeCreate (msg : String)
deriving DecidableEq, Repr

/-- Outcome of the `subprocess.run(..., timeout=5)` step: normal completion with exit
code and captured streams, `TimeoutExpired`, or any other raised exception. -/
inductive RunOutcome where
  | completed (returncode : Int) (stdout : String) (stderr : String)
  | timedOut
  | raised (msg : String)
deriving DecidableEq, Repr

/-- The dictionary returned by `execute_code_runner` (keys absent from a given return
are `none`). -/
structure CodeRunResult where
  success : Bool
  stdout : Option String := none
  stderr : Option String := none
  returncode : Option Int := none
  error : Option String := none
deriving DecidableEq, Repr

/-- ToolExecutor.execute_code_runner over the effect oracles.  The second component
lists the ephemeral files still on disk when the call returns: the `finally: os.unlink`
removes the file on every path reached after a successful write, but a write that raises
after file creation is caught by the outer `except` with no cleanup. -/
def execute_code_runner (language : String) (write : WriteOutcome) (run : RunOutcome) :
    CodeRunResult × List String :=
  if language != "python" && language != "javascript" then
    ({ success := false, error := some ("Unsupported language: " ++ language) }, [])
  else
    match write with
    | .raisedBeforeCreate msg => ({ success := false, error := some msg }, [])
    | .raisedAfterCreate fname msg => ({ success := false, error := some msg }, [fname])
    | .written _ =>
      match run with
      | .completed rc out err =>
        ({ success := rc == 0, stdout := some out, stderr := some err,
           returncode := some rc }, [])
      | .timedOut =>
        ({ success := false, error := some "Code execution timeout (5s limit)" }, [])
      | .raised msg => ({ success := false, error := some msg }, [])

/-- WebPage.to_dict from `tools/web_crawler.py`, restricted to the fields
`fetch_multiple` produces (an error page built from an exception has only `url` and
`error` set). -/
structure WebPage where
  url : String
  title : Option String := none
  text : Option String := none
  content_length : Nat := 0
  status_code : Option Int := none
  error : Option String := none
deriving DecidableEq, Repr

/-- Outcome of one `fetch` inside `asyncio.gather(..., return_exceptions=True)`: a page,
or an exception surfaced as a value. -/
inductive FetchOutcome where
  | page (p : WebPage)
  | exn (msg : String)
deriving DecidableEq, Repr

/-- WebCrawler.fetch_multiple: fetch every URL (the semaphore bounds concurrency but
does not affect which results are produced), then zip the input URLs with their
outcomes into a dict, converting an exception into `WebPage(url=url, error=str(page))`. -/
def fetch_multiple (fetch : String → FetchOutcome) (urls : List String) :
    List (String × WebPage) :=
  urls.foldl
    (fun result url =>
      dictSet result url
        (match fetch url with
         | .page p => p
         | .exn e => { url := url, error := some e }))
    []

/-- The page recorded for a URL by `fetch_multiple`: its fetched page, or the
synthesized error page. -/
def fetched_page (fetch : String → FetchOutcome) (url : String) : WebPage :=
  match fetch url with
  | .page p => p
  | .exn e => { url := url, error := some e }

/-- Reading back the key just set returns the value just written. -/
theorem dictGet_dictSet_self {α : Type} (d : List (String × α)) (k : String) (v : α) :
    dictGet (dictSet d k v) k = some v := by
  induction d with
  | nil => simp [dictSet, dictGet]
  | cons kv rest ih =>
    obtain ⟨k1, v1⟩ := kv
    by_cases h : k1 = k
    · simp [dictSet, dictGet, h]
    · simp [dictSet, dictGet, h, ih]

/-- Setting one key leaves reads of other keys unchanged. -/
theorem dictGet_dictSet_other {α : Type} (d : List (String × α)) (k k2 : String) (v : α)
    (h : k2 ≠ k) : dictGet (dictSet d k v) k2 = dictGet d k2 := by
  induction d with
  | nil => simp [dictSet, dictGet, Ne.symm h]
  | cons kv rest ih =>
    obtain ⟨k1, v1⟩ := kv
    by_cases h1 : k1 = k
    · subst h1
      simp [dictSet, dictGet, Ne.symm h]
    · simp only [dictSet, if_neg h1, dictGet]
      by_cases h2 : k1 = k2 <;> simp [h2, ih]

/-- Every key of `dictSet d k v` is a key of `d` or is `k`. -/
theorem mem_keys_dictSet {α : Type} (d : List (String × α)) (k : String) (v : α) (x : String) :
    x ∈ (dictSet d k v).map Prod.fst → x ∈ d.map Prod.fst ∨ x = k := by
  induction d with
  | nil =>
    intro hx
    simp only [dictSet, List.map_cons, List.map_nil, List.mem_singleton] at hx
    exact Or.inr hx
  | cons kv rest ih =>
    obtain ⟨k1, v1⟩ := kv
    by_cases h1 : k1 = k
    · intro hx
      rw [show dictSet ((k1, v1) :: rest) k v = (k, v) :: rest from by simp [dictSet, h1]] at hx
      simp only [List.map_cons, List.mem_cons] at hx
      simp only [List.map_cons, List.mem_cons]
      rcases hx with hx | hx
      · exact Or.inr hx
      · exact Or.inl (Or.inr hx)
    · intro hx
      rw [show dictSet ((k1, v1) :: rest) k v = (k1, v1) :: dictSet rest k v from by
            simp [dictSet, h1]] at hx
      simp only [List.map_cons, List.mem_cons] at hx
      simp only [List.map_cons, List.mem_cons]
      rcases hx with hx | hx
      · exact Or.inl (Or.inl hx)
      · rcases ih hx with h | h
        · exact Or.inl (Or.inr h)
        · exact Or.inr h

/-- `dictSet` keeps the keys of a dict without duplicate keys free of duplicates. -/
theorem nodup_keys_dictSet {α : Type} (d : List (String × α)) (k : String) (v : α)
    (h : (d.map Prod.fst).Nodup) : ((dictSet d k v).map Prod.fst).Nodup := by
  induction d with
  | nil => simp [dictSet]
  | cons kv rest ih =>
    obtain ⟨k1, v1⟩ := kv
    simp only [List.map_cons, List.nodup_cons] at h
    by_cases h1 : k1 = k
    · subst h1
      simpa [dictSet] using h
    · simp only [dictSet, if_neg h1, List.map_cons, List.nodup_cons]
      refine ⟨fun hmem => ?_, ih h.2⟩
      rcases mem_keys_dictSet rest k v k1 hmem with hm | hm
      · exact h.1 hm
      · exact h1 hm

/-- Unfolding of `fetch_multiple` whose per-URL value is named by `fetched_page`. -/
theorem fetch_multiple_eq (fetch : String → FetchOutcome) (urls : List String) :
    fetch_multiple fetch urls
      = urls.foldl (fun result url => dictSet result url (fetched_page fetch url)) [] := rfl

/-- Accumulator invariant for the `fetch_multiple` fold: once a URL maps to its fetched
page, later steps keep it there, and processing a URL establishes it. -/
theorem fetch_multiple_fold_get (fetch : String → FetchOutcome) (urls : List String) :
    ∀ (acc : List (String × WebPage)) (url : String),
      (url ∈ urls ∨ dictGet acc url = some (fetched_page fetch url)) →
      dictGet (urls.foldl (fun result u => dictSet result u (fetched_page fetch u)) acc) url
        = some (fetched_page fetch url) := by
  induction urls with
  | nil =>
    intro acc url h
    rcases h with h | h
    · cases h
    · simpa using h
  | cons u rest ih =>
    intro acc url h
    simp only [List.foldl_cons]
    by_cases hu : url = u
    · subst hu
      exact ih _ url (Or.inr (dictGet_dictSet_self acc url (fetched_page fetch url)))
    · rcases h with h | h
      · rcases List.mem_cons.mp h with h | h
        · exact absurd h hu
        · exact ih _ url (Or.inl h)
      · refine ih _ url (Or.inr ?_)
        rw [dictGet_dictSet_other acc u url (fetched_page fetch u) hu]
        exact h

/-- The `fetch_multiple` fold keeps the keys duplicate-free. -/
theorem fetch_multiple_fold_nodup (fetch : String → FetchOutcome) (urls : List String) :
    ∀ acc : List (String × WebPage),
      (acc.map Prod.fst).Nodup →
      ((urls.foldl (fun result u => dictSet result u (fetched_page fetch u)) acc).map
          Prod.fst).Nodup := by
  induction urls with
  | nil => intro acc h; simpa using h
  | cons u rest ih =>
    intro acc h
    simp only [List.foldl_cons]
    exact ih _ (nodup_keys_dictSet acc u (fetched_page fetch u) h)

/-- C7: for every fetch behaviour and URL list, the mapping returned by
`fetch_multiple` has exactly one entry per URL (its key list is duplicate-free and every
input URL is bound), the entry for a URL is exactly that URL's own fetch outcome —
so a sibling fetch that raises does not disturb it — and a fetch that raises is
converted into an error-result page for that URL. -/
theorem claim_C7 (fetch : String → FetchOutcome) (urls : List String) (url : String)
    (h : url ∈ urls) :
    dictGet (fetch_multiple fetch urls) url = some (fetched_page fetch url)
    ∧ ((fetch_multiple fetch urls).map Prod.fst).Nodup
    ∧ (∀ e, fetch url = FetchOutcome.exn e →
        dictGet (fetch_multiple fetch urls) url
          = some { url := url, error := some e }) := by
  have hget : dictGet (fetch_multiple fetch urls) url = some (fetched_page fetch url) := by
    rw [fetch_multiple_eq]
    exact fetch_multiple_fold_get fetch urls [] url (Or.inl h)
  refine ⟨hget, ?_, ?_⟩
  · rw [fetch_multiple_eq]
    exact fetch_multiple_fold_nodup fetch urls [] (by simp)
  · intro e he
    rw [hget, fetched_page, he]

/-- Concrete fetch behaviour for the C7 witness: one URL raises, the others succeed. -/
def c7_fetch_stub : String → FetchOutcome := fun url =>
  if url == "http:b" then .exn "boom"
  else .page { url := url, status_code := some 200 }

/-- Witness for C7 at a concrete batch: the URL whose fetch raised is bound to an
error page while its key list stays duplicate-free. -/
theorem claim_C7_witness :
    dictGet (fetch_multiple c7_fetch_stub ["http:a", "http:b", "http:c"]) "http:b"
      = some (fetched_page c7_fetch_stub "http:b")
    ∧ ((fetch_multiple c7_fetch_stub ["http:a", "http:b", "http:c"]).map Prod.fst).Nodup
    ∧ dictGet (fetch_multiple c7_fetch_stub ["http:a", "http:b", "http:c"]) "http:b"
        = some { url := "http:b", error := some "boom" } :=
  have h := claim_C7 c7_fetch_stub ["http:a", "http:b", "http:c"] "http:b" (by simp)
  ⟨h.1, h.2.1, h.2.2 "boom" rfl⟩

/-- Counterexample to C6 as stated: if writing the source raises after the ephemeral
file has been created (`tempfile.NamedTemporaryFile(delete=False)` creates the file
before `f.write` runs), the outer `except` returns an error result but no cleanup runs,
so the call exits through an exception path with the ephemeral file still on disk. -/
theorem claim_C6_counterexample :
    execute_code_runner "python" (.raisedAfterCreate "/tmp/ephemeral.py" "disk full")
        (.completed 0 "" "")
      = ({ success := false, error := some "disk full" }, ["/tmp/ephemeral.py"])
    ∧ (execute_code_runner "python" (.raisedAfterCreate "/tmp/ephemeral.py" "disk full")
        (.completed 0 "" "")).2 ≠ [] := by
  refine ⟨by rfl, by simp [execute_code_runner]⟩

/-- C6 amended: once the source has been successfully written, the ephemeral file is
removed on every exit path (normal completion with any exit code, timeout, or an
exception raised by the run); a timed-out run returns `success = false` with the
timeout-flagged error instead of raising; and an unsupported language name returns the
unsupported-language error without any file being created (the result is the same for
every write/run behaviour).  Only a write that raises after file creation leaks. -/
theorem claim_C6_amended (language fname : String) (run : RunOutcome)
    (hlang : language = "python" ∨ language = "javascript") :
    (execute_code_runner language (.written fname) run).2 = []
    ∧ execute_code_runner language (.written fname) .timedOut
        = ({ success := false, error := some "Code execution timeout (5s limit)" }, [])
    ∧ (∀ (lang2 : String) (write : WriteOutcome) (run2 : RunOutcome),
        lang2 ≠ "python" → lang2 ≠ "javascript" →
        execute_code_runner lang2 write run2
          = ({ success := false, error := some ("Unsupported language: " ++ lang2) }, [])) := by
  refine ⟨?_, ?_, ?_⟩
  · rcases hlang with h | h <;> subst h <;> cases run <;> rfl
  · rcases hlang with h | h <;> subst h <;> rfl
  · intro lang2 write run2 h1 h2
    simp [execute_code_runner, h1, h2]

/-- Witness for C6 amended at concrete inputs: a non-zero exit leaves no file, a
timeout returns the flagged failure with no file, and an unsupported language returns
its error with no file even when the write oracle would have leaked. -/
theorem claim_C6_witness :
    (execute_code_runner "python" (.written "/tmp/s.py") (.completed 1 "out" "err")).2 = []
    ∧ execute_code_runner "python" (.written "/tmp/s.py") .timedOut
        = ({ success := false, error := some "Code execution timeout (5s limit)" }, [])
    ∧ execute_code_runner "ruby" (.raisedAfterCreate "f" "m") (.completed 0 "" "")
        = ({ success := false, error := some ("Unsupported language: " ++ "ruby") }, []) :=
  have h := claim_C6_amended "python" "/tmp/s.py" (.completed 1 "out" "err") (Or.inl rfl)
  ⟨h.1, h.2.1, h.2.2 "ruby" (.raisedAfterCreate "f" "m") (.completed 0 "" "")
    (by decide) (by decide)⟩

/-- Counterexample to C8 as stated: `update_task_status` carries no monotonicity guard,
so a single state operation moves a completed task straight back to pending. -/
theorem claim_C8_counterexample :
    (update_task_status
        { user_request := "r",
          todo_list := [{ id := "t1", content := "x", status := TaskStatus.completed }] }
        "t1" TaskStatus.pending).todo_list
      = [{ id := "t1", content := "x", status := TaskStatus.pending }] := by
  rfl

/-- C8 amended: `update_task_status` unconditionally overwrites the status of the first
task whose id matches with the given value — backward transitions included — and leaves
every other task untouched; forward-only monotonicity is a convention of the loop
(which only ever writes `completed`), not a property enforced by the state operation. -/
theorem claim_C8_amended (s : AgentState) (task_id : String) (st : TaskStatus)
    (pre post : List Task) (t : Task)
    (hsplit : s.todo_list = pre ++ t :: post)
    (hid : t.id = task_id)
    (hpre : ∀ u ∈ pre, u.id ≠ task_id) :
    (update_task_status s task_id st).todo_list = pre ++ { t with status := st } :: post := by
  have aux : ∀ (l : List Task), (∀ u ∈ l, u.id ≠ task_id) →
      set_status_first (l ++ t :: post) task_id st = l ++ { t with status := st } :: post := by
    intro l hl
    induction l with
    | nil => simp [set_status_first, hid]
    | cons u rest ih =>
      simp only [List.cons_append, set_status_first]
      rw [if_neg (hl u (by simp))]
      exact congrArg (u :: ·) (ih (fun v hv => hl v (by simp [hv])))
  simp only [update_task_status, hsplit]
  exact aux pre hpre

/-- Witness for C8 amended: the overwrite applied to a singleton list holding a
completed task, moving it back to pending. -/
theorem claim_C8_amended_witness :
    (update_task_status
        { user_request := "r",
          todo_list := [{ id := "t1", content := "x", status := TaskStatus.completed }] }
        "t1" TaskStatus.pending).todo_list
      = [] ++ { ({ id := "t1", content := "x", status := TaskStatus.completed } : Task) with
                status := TaskStatus.pending } :: [] :=
  claim_C8_amended
    { user_request := "r",
      todo_list := [{ id := "t1", content := "x", status := TaskStatus.completed }] }
    "t1" TaskStatus.pending [] []
    { id := "t1", content := "x", status := TaskStatus.completed }
    rfl rfl (by simp)

/-- C9: `get_pending_tasks` returns exactly the tasks of the todo list whose status is
pending (no other status included, none omitted), as a sublist of the todo list — hence
in insertion order — and appending a task via `add_task` extends the pending view at the
end exactly when the new task is pending. -/
theorem claim_C9 (s : AgentState) (t : Task) :
    (t ∈ get_pending_tasks s ↔ t ∈ s.todo_list ∧ t.status = TaskStatus.pending)
    ∧ List.Sublist (get_pending_tasks s) s.todo_list
    ∧ (∀ u : Task, get_pending_tasks (add_task s u)
        = get_pending_tasks s
          ++ (if u.status = TaskStatus.pending then [u] else [])) := by
  refine ⟨?_, ?_, ?_⟩
  · simp [get_pending_tasks, List.mem_filter]
  · exact List.filter_sublist s.todo_list
  · intro u
    by_cases h : u.status = TaskStatus.pending <;>
      simp [get_pending_tasks, add_task, List.filter_append, h]

/-- Witness for C9 at a concrete two-task state: the pending view is a sublist of the
todo list and appending a pending task extends the view at the end. -/
theorem claim_C9_witness :
    List.Sublist
      (get_pending_tasks
        { user_request := "r",
          todo_list := [{ id := "1", content := "a" },
                        { id := "2", content := "b", status := TaskStatus.completed }] })
      ({ user_request := "r",
         todo_list := [{ id := "1", content := "a" },
                       { id := "2", content := "b", status := TaskStatus.completed }]
        : AgentState }).todo_list
    ∧ get_pending_tasks
        (add_task
          { user_request := "r",
            todo_list := [{ id := "1", content := "a" },
                          { id := "2", content := "b", status := TaskStatus.completed }] }
          { id := "3", content := "c" })
      = get_pending_tasks
          { user_request := "r",
            todo_list := [{ id := "1", content := "a" },
                          { id := "2", content := "b", status := TaskStatus.completed }] }
        ++ (if ({ id := "3", content := "c" } : Task).status = TaskStatus.pending
            then [{ id := "3", content := "c" }] else []) :=
  ⟨(claim_C9
      { user_request := "r",
        todo_list := [{ id := "1", content := "a" },
                      { id := "2", content := "b", status := TaskStatus.completed }] }
      { id := "1", content := "a" }).2.1,
   (claim_C9
      { user_request := "r",
        todo_list := [{ id := "1", content := "a" },
                      { id := "2", content := "b", status := TaskStatus.completed }] }
      { id := "1", content := "a" }).2.2 { id := "3", content := "c" }⟩

/-- One tool-use turn of the protocol loop: with a "tool_use" stop reason, the loop
processes the blocks, appends the assistant turn and the synthetic tool-result turn to
the transcript, and recurses with one more engine call on the tally. -/
theorem gwt_aux_tool_step (engine : List Message → EngineResponse)
    (execTool : String → String → ToolOutcome) (n : Nat) (conv : List Message)
    (made : List ToolCallRecord) (h : (engine conv).stop_reason = "tool_use") :
    generate_with_tools_aux engine execTool (n + 1) conv made
      = ((generate_with_tools_aux engine execTool n
            (conv ++ [⟨"assistant", .ofBlocks (engine conv).content⟩,
                      ⟨"user", .ofResults
                        (process_tool_blocks execTool (engine conv).content made []).2⟩])
            (process_tool_blocks execTool (engine conv).content made []).1).1,
         (generate_with_tools_aux engine execTool n
            (conv ++ [⟨"assistant", .ofBlocks (engine conv).content⟩,
                      ⟨"user", .ofResults
                        (process_tool_blocks execTool (engine conv).content made []).2⟩])
            (process_tool_blocks execTool (engine conv).content made []).1).2 + 1) := by
  simp [generate_with_tools_aux, h]

/-- The final turn of the protocol loop: with any stop reason other than "tool_use",
the loop returns the concatenated text, the records accumulated so far, and the
response's own stop reason, after exactly this one engine call. -/
theorem gwt_aux_final_step (engine : List Message → EngineResponse)
    (execTool : String → String → ToolOutcome) (n : Nat) (conv : List Message)
    (made : List ToolCallRecord) (h : (engine conv).stop_reason ≠ "tool_use") :
    generate_with_tools_aux engine execTool (n + 1) conv made
      = (⟨concat_text (engine conv).content, made, (engine conv).stop_reason⟩, 1) := by
  simp [generate_with_tools_aux, h]

/-- Processing a turn's blocks only ever appends to the record accumulator. -/
theorem ptb_made_grows (execTool : String → String → ToolOutcome)
    (blocks : List ContentBlock) :
    ∀ made results, ∃ ext,
      (process_tool_blocks execTool blocks made results).1 = made ++ ext := by
  induction blocks with
  | nil => intro made results; exact ⟨[], by simp [process_tool_blocks]⟩
  | cons b rest ih =>
    intro made results
    cases b with
    | text s =>
      obtain ⟨ext, hext⟩ := ih made results
      exact ⟨ext, by simpa [process_tool_blocks] using hext⟩
    | tool_use id name input =>
      cases hx : execTool name input with
      | ok r =>
        obtain ⟨ext, hext⟩ := ih (made ++ [⟨name, input, r⟩]) (results ++ [⟨id, r, false⟩])
        refine ⟨⟨name, input, r⟩ :: ext, ?_⟩
        rw [show process_tool_blocks execTool (ContentBlock.tool_use id name input :: rest)
              made results
            = process_tool_blocks execTool rest (made ++ [⟨name, input, r⟩])
                (results ++ [⟨id, r, false⟩]) from by simp [process_tool_blocks, hx]]
        rw [hext, List.append_assoc]
        rfl
      | exn e =>
        obtain ⟨ext, hext⟩ := ih made (results ++ [⟨id, "Error executing tool: " ++ e, true⟩])
        refine ⟨ext, ?_⟩
        rw [show process_tool_blocks execTool (ContentBlock.tool_use id name input :: rest)
              made results
            = process_tool_blocks execTool rest made
                (results ++ [⟨id, "Error executing tool: " ++ e, true⟩]) from by
              simp [process_tool_blocks, hx]]
        exact hext

/-- Processing a turn's blocks only ever appends to the result-entry accumulator. -/
theorem ptb_results_grows (execTool : String → String → ToolOutcome)
    (blocks : List ContentBlock) :
    ∀ made results, ∃ ext,
      (process_tool_blocks execTool blocks made results).2 = results ++ ext := by
  induction blocks with
  | nil => intro made results; exact ⟨[], by simp [process_tool_blocks]⟩
  | cons b rest ih =>
    intro made results
    cases b with
    | text s =>
      obtain ⟨ext, hext⟩ := ih made results
      exact ⟨ext, by simpa [process_tool_blocks] using hext⟩
    | tool_use id name input =>
      cases hx : execTool name input with
      | ok r =>
        obtain ⟨ext, hext⟩ := ih (made ++ [⟨name, input, r⟩]) (results ++ [⟨id, r, false⟩])
        refine ⟨⟨id, r, false⟩ :: ext, ?_⟩
        rw [show process_tool_blocks execTool (ContentBlock.tool_use id name input :: rest)
              made results
            = process_tool_blocks execTool rest (made ++ [⟨name, input, r⟩])
                (results ++ [⟨id, r, false⟩]) from by simp [process_tool_blocks, hx]]
        rw [hext, List.append_assoc]
        rfl
      | exn e =>
        obtain ⟨ext, hext⟩ :=
          ih made (results ++ [⟨id, "Error executing tool: " ++ e, true⟩])
        refine ⟨⟨id, "Error executing tool: " ++ e, true⟩ :: ext, ?_⟩
        rw [show process_tool_blocks execTool (ContentBlock.tool_use id name input :: rest)
              made results
            = process_tool_blocks execTool rest made
                (results ++ [⟨id, "Error executing tool: " ++ e, true⟩]) from by
              simp [process_tool_blocks, hx]]
        rw [hext, List.append_assoc]
        rfl

/-- Block processing splits over list append: the second half starts from the
accumulators the first half produced. -/
theorem ptb_append (execTool : String → String → ToolOutcome) (xs ys : List ContentBlock) :
    ∀ made results,
      process_tool_blocks execTool (xs ++ ys) made results
        = process_tool_blocks execTool ys
            (process_tool_blocks execTool xs made results).1
            (process_tool_blocks execTool xs made results).2 := by
  induction xs with
  | nil => intro made results; simp [process_tool_blocks]
  | cons b rest ih =>
    intro made results
    cases b with
    | text s => simpa [process_tool_blocks] using ih made results
    | tool_use id name input =>
      cases hx : execTool name input with
      | ok r => simp [process_tool_blocks, hx, ih]
      | exn e => simp [process_tool_blocks, hx, ih]

/-- Every record that block processing adds comes from a tool execution that returned
normally with exactly that result. -/
theorem ptb_records_sound (execTool : String → String → ToolOutcome)
    (blocks : List ContentBlock) :
    ∀ made results,
      (∀ rec ∈ made, execTool rec.name rec.input = .ok rec.result) →
      ∀ rec ∈ (process_tool_blocks execTool blocks made results).1,
        execTool rec.name rec.input = .ok rec.result := by
  induction blocks with
  | nil =>
    intro made results hmade rec hrec
    exact hmade rec (by simpa [process_tool_blocks] using hrec)
  | cons b rest ih =>
    intro made results hmade rec hrec
    cases b with
    | text s =>
      exact ih made results hmade rec (by simpa [process_tool_blocks] using hrec)
    | tool_use id name input =>
      cases hx : execTool name input with
      | ok r =>
        refine ih (made ++ [⟨name, input, r⟩]) (results ++ [⟨id, r, false⟩]) ?_ rec
          (by simpa [process_tool_blocks, hx] using hrec)
        intro rec2 hrec2
        rcases List.mem_append.mp hrec2 with hm | hm
        · exact hmade rec2 hm
        · have heq : rec2 = ⟨name, input, r⟩ := List.mem_singleton.mp hm
          subst heq
          exact hx
      | exn e =>
        exact ih made (results ++ [⟨id, "Error executing tool: " ++ e, true⟩]) hmade rec
          (by simpa [process_tool_blocks, hx] using hrec)

/-- C2: for every engine behaviour that requests tool use on every turn (and every tool
behaviour), `generate_with_tools` with turn budget N makes exactly N engine calls and
then returns normally — the embedding is a total function — with the budget-exhausted
content marker, stop reason "max_iterations", and the accumulated tool-call list
(everything accumulated so far is kept, in order, as a prefix-extension of the
accumulator). -/
theorem claim_C2 (engine : List Message → EngineResponse)
    (execTool : String → String → ToolOutcome)
    (hengine : ∀ conv, (engine conv).stop_reason = "tool_use")
    (N : Nat) :
    ∀ (conv : List Message) (made : List ToolCallRecord),
      (generate_with_tools_aux engine execTool N conv made).1.content
          = "Maximum tool use iterations reached"
      ∧ (generate_with_tools_aux engine execTool N conv made).1.stop_reason
          = "max_iterations"
      ∧ (generate_with_tools_aux engine execTool N conv made).2 = N
      ∧ ∃ ext, (generate_with_tools_aux engine execTool N conv made).1.tool_calls
          = made ++ ext := by
  induction N with
  | zero =>
    intro conv made
    exact ⟨rfl, rfl, rfl, ⟨[], by simp [generate_with_tools_aux]⟩⟩
  | succ n ih =>
    intro conv made
    rw [gwt_aux_tool_step engine execTool n conv made (hengine conv)]
    obtain ⟨h1, h2, h3, ⟨ext, hext⟩⟩ :=
      ih (conv ++ [⟨"assistant", .ofBlocks (engine conv).content⟩,
                   ⟨"user", .ofResults
                     (process_tool_blocks execTool (engine conv).content made []).2⟩])
         (process_tool_blocks execTool (engine conv).content made []).1
    obtain ⟨ext0, hext0⟩ := ptb_made_grows execTool (engine conv).content made []
    refine ⟨h1, h2, congrArg (· + 1) h3, ⟨ext0 ++ ext, ?_⟩⟩
    show (generate_with_tools_aux engine execTool n
        (conv ++ [⟨"assistant", .ofBlocks (engine conv).content⟩,
                  ⟨"user", .ofResults
                    (process_tool_blocks execTool (engine conv).content made []).2⟩])
        (process_tool_blocks execTool (engine conv).content made []).1).1.tool_calls
      = made ++ (ext0 ++ ext)
    rw [hext, hext0, List.append_assoc]

/-- Engine stub for the C2 witness: it requests the same tool invocation on every
turn. -/
def always_tool_engine : List Message → EngineResponse := fun _ =>
  ⟨"tool_use", [.tool_use "id1" "echo" "ping"]⟩

/-- Tool behaviour stub that echoes its input back as the result. -/
def echo_exec : String → String → ToolOutcome := fun _ input => .ok input

/-- Witness for C2 with a concrete always-requesting stub and budget 3: exactly 3
engine calls, the budget marker, stop reason "max_iterations". -/
theorem claim_C2_witness :
    (generate_with_tools_aux always_tool_engine echo_exec 3 [⟨"user", .ofText "go"⟩] []).1.content
        = "Maximum tool use iterations reached"
    ∧ (generate_with_tools_aux always_tool_engine echo_exec 3 [⟨"user", .ofText "go"⟩] []).1.stop_reason
        = "max_iterations"
    ∧ (generate_with_tools_aux always_tool_engine echo_exec 3 [⟨"user", .ofText "go"⟩] []).2 = 3
    ∧ ∃ ext, (generate_with_tools_aux always_tool_engine echo_exec 3 [⟨"user", .ofText "go"⟩] []).1.tool_calls
        = [] ++ ext :=
  claim_C2 always_tool_engine echo_exec (fun _ => rfl) 3 [⟨"user", .ofText "go"⟩] []

/-- Engine stub for the C3 counterexample: a tool request on turns 1 and 2 (transcript
lengths 1 and 3) and a final answer whose API stop reason is "end_turn" on turn 3. -/
def c3_engine : List Message → EngineResponse := fun conv =>
  if conv.length == 1 then ⟨"tool_use", [.tool_use "t1" "echo" "a"]⟩
  else if conv.length == 3 then ⟨"tool_use", [.tool_use "t2" "echo" "b"]⟩
  else ⟨"end_turn", [.text "done"]⟩

/-- Counterexample to C3 as stated: with a stub that requests one tool on turns 1 and 2
and returns a final answer (no tool request, API stop reason "end_turn") on turn 3, the
returned `tool_calls` has exactly the 2 entries in request order and exactly 3 engine
calls are made, but the returned stop reason is the response's own "end_turn", not the
literal "final" the claim requires. -/
theorem claim_C3_counterexample :
    (generate_with_tools c3_engine echo_exec 5 [⟨"user", .ofText "hi"⟩]).tool_calls
        = [⟨"echo", "a", "a"⟩, ⟨"echo", "b", "b"⟩]
    ∧ (generate_with_tools_aux c3_engine echo_exec 5 [⟨"user", .ofText "hi"⟩] []).2 = 3
    ∧ (generate_with_tools c3_engine echo_exec 5 [⟨"user", .ofText "hi"⟩]).stop_reason
        = "end_turn"
    ∧ (generate_with_tools c3_engine echo_exec 5 [⟨"user", .ofText "hi"⟩]).stop_reason
        ≠ "final" := by
  refine ⟨by rfl, by rfl, by rfl, by decide⟩

/-- C3 amended: for every engine behaviour that requests exactly one tool invocation on
each of turns 1 and 2 (both executing successfully) and on turn 3 returns a response
whose stop reason is anything other than "tool_use", and any turn budget of at least 3,
`generate_with_tools` returns the concatenation of the textual fragments of the final
response, the tool-call list with exactly the 2 invocations in request order, and the
final response's own stop reason (the source returns `response.stop_reason` verbatim,
not the literal "final"). -/
theorem claim_C3_amended (engine : List Message → EngineResponse)
    (execTool : String → String → ToolOutcome) (n : Nat) (conv0 : List Message)
    (id1 name1 in1 r1 id2 name2 in2 r2 : String) (resp3 : EngineResponse)
    (h1 : engine conv0 = ⟨"tool_use", [.tool_use id1 name1 in1]⟩)
    (hx1 : execTool name1 in1 = .ok r1)
    (h2 : engine (conv0 ++ [⟨"assistant", .ofBlocks [.tool_use id1 name1 in1]⟩,
            ⟨"user", .ofResults [⟨id1, r1, false⟩]⟩])
        = ⟨"tool_use", [.tool_use id2 name2 in2]⟩)
    (hx2 : execTool name2 in2 = .ok r2)
    (h3 : engine ((conv0 ++ [⟨"assistant", .ofBlocks [.tool_use id1 name1 in1]⟩,
              ⟨"user", .ofResults [⟨id1, r1, false⟩]⟩])
            ++ [⟨"assistant", .ofBlocks [.tool_use id2 name2 in2]⟩,
                ⟨"user", .ofResults [⟨id2, r2, false⟩]⟩])
        = resp3)
    (hfin : resp3.stop_reason ≠ "tool_use") :
    generate_with_tools engine execTool (n + 3) conv0
      = ⟨concat_text resp3.content,
         [⟨name1, in1, r1⟩, ⟨name2, in2, r2⟩], resp3.stop_reason⟩ := by
  have e1 : generate_with_tools_aux engine execTool (n + 3) conv0 []
      = ((generate_with_tools_aux engine execTool (n + 2)
            (conv0 ++ [⟨"assistant", .ofBlocks [.tool_use id1 name1 in1]⟩,
                       ⟨"user", .ofResults [⟨id1, r1, false⟩]⟩])
            [⟨name1, in1, r1⟩]).1,
         (generate_with_tools_aux engine execTool (n + 2)
            (conv0 ++ [⟨"assistant", .ofBlocks [.tool_use id1 name1 in1]⟩,
                       ⟨"user", .ofResults [⟨id1, r1, false⟩]⟩])
            [⟨name1, in1, r1⟩]).2 + 1) := by
    rw [show n + 3 = (n + 2) + 1 from rfl,
        gwt_aux_tool_step engine execTool (n + 2) conv0 [] (by rw [h1])]
    rw [h1]
    simp [process_tool_blocks, hx1]
  have e2 : generate_with_tools_aux engine execTool (n + 2)
        (conv0 ++ [⟨"assistant", .ofBlocks [.tool_use id1 name1 in1]⟩,
                   ⟨"user", .ofResults [⟨id1, r1, false⟩]⟩])
        [⟨name1, in1, r1⟩]
      = ((generate_with_tools_aux engine execTool (n + 1)
            ((conv0 ++ [⟨"assistant", .ofBlocks [.tool_use id1 name1 in1]⟩,
                        ⟨"user", .ofResults [⟨id1, r1, false⟩]⟩])
              ++ [⟨"assistant", .ofBlocks [.tool_use id2 name2 in2]⟩,
                  ⟨"user", .ofResults [⟨id2, r2, false⟩]⟩])
            [⟨name1, in1, r1⟩, ⟨name2, in2, r2⟩]).1,
         (generate_with_tools_aux engine execTool (n + 1)
            ((conv0 ++ [⟨"assistant", .ofBlocks [.tool_use id1 name1 in1]⟩,
                        ⟨"user", .ofResults [⟨id1, r1, false⟩]⟩])
              ++ [⟨"assistant", .ofBlocks [.tool_use id2 name2 in2]⟩,
                  ⟨"user", .ofResults [⟨id2, r2, false⟩]⟩])
            [⟨name1, in1, r1⟩, ⟨name2, in2, r2⟩]).2 + 1) := by
    rw [show n + 2 = (n + 1) + 1 from rfl,
        gwt_aux_tool_step engine execTool (n + 1) _ [⟨name1, in1, r1⟩] (by rw [h2])]
    rw [h2]
    simp [process_tool_blocks, hx2]
  have e3 : generate_with_tools_aux engine execTool (n + 1)
        ((conv0 ++ [⟨"assistant", .ofBlocks [.tool_use id1 name1 in1]⟩,
                    ⟨"user", .ofResults [⟨id1, r1, false⟩]⟩])
          ++ [⟨"assistant", .ofBlocks [.tool_use id2 name2 in2]⟩,
              ⟨"user", .ofResults [⟨id2, r2, false⟩]⟩])
        [⟨name1, in1, r1⟩, ⟨name2, in2, r2⟩]
      = (⟨concat_text resp3.content, [⟨name1, in1, r1⟩, ⟨name2, in2, r2⟩],
          resp3.stop_reason⟩, 1) := by
    rw [gwt_aux_final_step engine execTool n _ [⟨name1, in1, r1⟩, ⟨name2, in2, r2⟩]
          (by rw [h3]; exact hfin)]
    rw [h3]
  show (generate_with_tools_aux engine execTool (n + 3) conv0 []).1 = _
  rw [e1]
  show (generate_with_tools_aux engine execTool (n + 2)
      (conv0 ++ [⟨"assistant", .ofBlocks [.tool_use id1 name1 in1]⟩,
                 ⟨"user", .ofResults [⟨id1, r1, false⟩]⟩])
      [⟨name1, in1, r1⟩]).1 = _
  rw [e2]
  show (generate_with_tools_aux engine execTool (n + 1)
      ((conv0 ++ [⟨"assistant", .ofBlocks [.tool_use id1 name1 in1]⟩,
                  ⟨"user", .ofResults [⟨id1, r1, false⟩]⟩])
        ++ [⟨"assistant", .ofBlocks [.tool_use id2 name2 in2]⟩,
            ⟨"user", .ofResults [⟨id2, r2, false⟩]⟩])
      [⟨name1, in1, r1⟩, ⟨name2, in2, r2⟩]).1 = _
  rw [e3]

/-- Witness for C3 amended at the concrete two-tools-then-final stub with budget 5. -/
theorem claim_C3_amended_witness :
    generate_with_tools c3_engine echo_exec 5 [⟨"user", .ofText "hi"⟩]
      = ⟨concat_text [ContentBlock.text "done"],
         [⟨"echo", "a", "a"⟩, ⟨"echo", "b", "b"⟩], "end_turn"⟩ :=
  claim_C3_amended c3_engine echo_exec 2 [⟨"user", .ofText "hi"⟩]
    "t1" "echo" "a" "a" "t2" "echo" "b" "b" ⟨"end_turn", [.text "done"]⟩
    rfl rfl rfl rfl rfl (by decide)

/-- C4: inside a tool-use turn, an invocation whose execution raises is caught at that
call site: block processing converts it into an error-flagged tool-result entry for
that invocation's identifier (first and second conjuncts), continues with the remaining
invocations of the same turn from exactly that point (first conjunct), and the protocol
proceeds to the next turn with the transcript extended by the assistant turn and the
tool-result turn, instead of aborting (third conjunct). -/
theorem claim_C4 (engine : List Message → EngineResponse)
    (execTool : String → String → ToolOutcome) (n : Nat) (conv : List Message)
    (made : List ToolCallRecord) (pre post : List ContentBlock)
    (id name input e : String)
    (hstop : (engine conv).stop_reason = "tool_use")
    (hcontent : (engine conv).content = pre ++ ContentBlock.tool_use id name input :: post)
    (hfail : execTool name input = .exn e) :
    process_tool_blocks execTool ((engine conv).content) made []
        = process_tool_blocks execTool post
            (process_tool_blocks execTool pre made []).1
            ((process_tool_blocks execTool pre made []).2
              ++ [⟨id, "Error executing tool: " ++ e, true⟩])
    ∧ (⟨id, "Error executing tool: " ++ e, true⟩ : ToolResultEntry)
        ∈ (process_tool_blocks execTool ((engine conv).content) made []).2
    ∧ generate_with_tools_aux engine execTool (n + 1) conv made
        = ((generate_with_tools_aux engine execTool n
              (conv ++ [⟨"assistant", .ofBlocks (engine conv).content⟩,
                        ⟨"user", .ofResults
                          (process_tool_blocks execTool ((engine conv).content) made []).2⟩])
              (process_tool_blocks execTool ((engine conv).content) made []).1).1,
           (generate_with_tools_aux engine execTool n
              (conv ++ [⟨"assistant", .ofBlocks (engine conv).content⟩,
                        ⟨"user", .ofResults
                          (process_tool_blocks execTool ((engine conv).content) made []).2⟩])
              (process_tool_blocks execTool ((engine conv).content) made []).1).2 + 1) := by
  have hsplit : process_tool_blocks execTool ((engine conv).content) made []
      = process_tool_blocks execTool post
          (process_tool_blocks execTool pre made []).1
          ((process_tool_blocks execTool pre made []).2
            ++ [⟨id, "Error executing tool: " ++ e, true⟩]) := by
    rw [hcontent, ptb_append execTool pre (ContentBlock.tool_use id name input :: post)]
    rw [show process_tool_blocks execTool (ContentBlock.tool_use id name input :: post)
          (process_tool_blocks execTool pre made []).1
          (process_tool_blocks execTool pre made []).2
        = process_tool_blocks execTool post
            (process_tool_blocks execTool pre made []).1
            ((process_tool_blocks execTool pre made []).2
              ++ [⟨id, "Error executing tool: " ++ e, true⟩]) from by
          simp [process_tool_blocks, hfail]]
  refine ⟨hsplit, ?_, gwt_aux_tool_step engine execTool n conv made hstop⟩
  rw [hsplit]
  obtain ⟨ext, hext⟩ := ptb_results_grows execTool post
    (process_tool_blocks execTool pre made []).1
    ((process_tool_blocks execTool pre made []).2
      ++ [⟨id, "Error executing tool: " ++ e, true⟩])
  rw [hext]
  simp

/-- Tool behaviour for the C4/C10 witnesses: the tool named "bad" raises, every other
tool echoes its input. -/
def failing_exec : String → String → ToolOutcome := fun name input =>
  if name == "bad" then .exn "no such tool" else .ok input

/-- Engine stub for the C4/C10 witnesses: one turn requesting three invocations, the
middle one of the failing tool. -/
def c4_engine : List Message → EngineResponse := fun _ =>
  ⟨"tool_use", [.tool_use "i1" "echo" "x", .tool_use "i2" "bad" "y",
                .tool_use "i3" "echo" "z"]⟩

/-- Witness for C4 at the concrete three-invocation turn: the failing middle
invocation produces an error-flagged result entry in that turn's transcript payload. -/
theorem claim_C4_witness :
    (⟨"i2", "Error executing tool: " ++ "no such tool", true⟩ : ToolResultEntry)
      ∈ (process_tool_blocks failing_exec ((c4_engine []).content) [] []).2 :=
  (claim_C4 c4_engine failing_exec 0 [] [] [.tool_use "i1" "echo" "x"]
    [.tool_use "i3" "echo" "z"] "i2" "bad" "y" "no such tool" rfl rfl rfl).2.1

/-- C10: every record in the `tool_calls` list returned by `generate_with_tools` comes
from an invocation whose execution returned normally with exactly that result; hence an
invocation whose execution raised — converted into an error-flagged transcript entry by
the turn processing — never appears in the returned `tool_calls` list. -/
theorem claim_C10 (engine : List Message → EngineResponse)
    (execTool : String → String → ToolOutcome) (n : Nat) (conv : List Message) :
    (∀ rec ∈ (generate_with_tools_aux engine execTool n conv []).1.tool_calls,
        execTool rec.name rec.input = .ok rec.result)
    ∧ (∀ name input e, execTool name input = .exn e →
        ∀ r, (⟨name, input, r⟩ : ToolCallRecord)
            ∉ (generate_with_tools_aux engine execTool n conv []).1.tool_calls) := by
  have main : ∀ (m : Nat) (conv2 : List Message) (made : List ToolCallRecord),
      (∀ rec ∈ made, execTool rec.name rec.input = .ok rec.result) →
      ∀ rec ∈ (generate_with_tools_aux engine execTool m conv2 made).1.tool_calls,
        execTool rec.name rec.input = .ok rec.result := by
    intro m
    induction m with
    | zero => intro conv2 made hmade rec hrec; exact hmade rec hrec
    | succ m2 ih =>
      intro conv2 made hmade rec hrec
      by_cases hstop : (engine conv2).stop_reason = "tool_use"
      · rw [gwt_aux_tool_step engine execTool m2 conv2 made hstop] at hrec
        exact ih _ _ (ptb_records_sound execTool (engine conv2).content made [] hmade) rec hrec
      · rw [gwt_aux_final_step engine execTool m2 conv2 made hstop] at hrec
        exact hmade rec hrec
  refine ⟨main n conv [] (by simp), ?_⟩
  intro name input e he r hmem
  have hok := main n conv [] (by simp) ⟨name, input, r⟩ hmem
  rw [he] at hok
  cases hok

/-- Witness for C10: at the concrete failing-invocation turn, no record for the raised
invocation appears in the returned tool-call list. -/
theorem claim_C10_witness :
    (⟨"bad", "y", "whatever"⟩ : ToolCallRecord)
      ∉ (generate_with_tools_aux c4_engine failing_exec 1 [] []).1.tool_calls :=
  (claim_C10 c4_engine failing_exec 1 []).2 "bad" "y" "no such tool" rfl "whatever"

/-- A completed state is a fixpoint of the loop: once `is_complete` holds, no further
action is dispatched. -/
theorem run_loop_of_complete (enable_web_search : Bool)
    (acts : Nat → ActionName → AgentState → ExecOutcome) :
    ∀ (fuel k : Nat) (s : AgentState), s.is_complete = true →
      run_loop enable_web_search acts fuel k s = s := by
  intro fuel
  cases fuel with
  | zero => intro k s _; rfl
  | succ n => intro k s h; simp [run_loop, h]

/-- C5: if the action selected for a not-yet-complete state raises, the loop catches
the exception, stores its message under the "error" key of the state's context, marks
the state complete, and returns that state (first conjunct); the returned state is then
a fixpoint of the loop for any further fuel and dispatch index, so no further action
runs (second conjunct).  The embedding of `run` is a total function, so this absorbed
path is the only abnormal-termination behaviour it has: no exception escapes. -/
theorem claim_C5 (enable_web_search : Bool)
    (acts : Nat → ActionName → AgentState → ExecOutcome)
    (fuel k : Nat) (s : AgentState) (e : String)
    (hrun : s.is_complete = false)
    (herr : acts k (determine_next_action enable_web_search s).2
        (determine_next_action enable_web_search s).1 = .exn e) :
    run_loop enable_web_search acts (fuel + 1) k s
      = { (determine_next_action enable_web_search s).1 with
          context := dictSet (determine_next_action enable_web_search s).1.context
            "error" (.strV e),
          is_complete := true }
    ∧ (∀ fuel2 k2,
        run_loop enable_web_search acts fuel2 k2
            (run_loop enable_web_search acts (fuel + 1) k s)
          = run_loop enable_web_search acts (fuel + 1) k s) := by
  have hmain : run_loop enable_web_search acts (fuel + 1) k s
      = { (determine_next_action enable_web_search s).1 with
          context := dictSet (determine_next_action enable_web_search s).1.context
            "error" (.strV e),
          is_complete := true } := by
    rw [run_loop, hrun]
    simp only [Bool.false_eq_true, if_false]
    rw [herr]
  refine ⟨hmain, fun fuel2 k2 => ?_⟩
  rw [hmain]
  exact run_loop_of_complete enable_web_search acts fuel2 k2 _ rfl

/-- Action behaviour for the C5 witness: every dispatch raises. -/
def boom_acts : Nat → ActionName → AgentState → ExecOutcome := fun _ _ _ => .exn "boom"

/-- Witness for C5 at a fresh state whose first dispatched action raises. -/
theorem claim_C5_witness :
    run_loop false boom_acts 1 0 (init_state "x")
      = { (determine_next_action false (init_state "x")).1 with
          context := dictSet (determine_next_action false (init_state "x")).1.context
            "error" (.strV "boom"),
          is_complete := true } :=
  (claim_C5 false boom_acts 0 0 (init_state "x") "boom" rfl rfl).1

/-- Action behaviour exhibiting the C1 failure: the web-search action keeps reporting
`search_performed = False` (exactly what `WebSearchAction.execute` returns whenever its
search backend fails to initialize or every query raises), the other actions behave
like their fallback paths.  The behaviour is independent of the dispatch index. -/
def ws_failure_stub : Nat → ActionName → AgentState → ExecOutcome := fun _ a _ =>
  match a with
  | .web_search => .ok { search_results := some (.dataV "empty results"),
                         search_performed := some (.boolV false) }
  | .analyze_requirement => .ok { analysis := some "fallback analysis" }
  | .create_todo => .ok { todo_list := some [] }
  | .generate_code => .ok { code := some "code" }

/-- The state the run reaches after the first web-search dispatch; every further
iteration maps it to itself. -/
def c1_loop_state : AgentState :=
  { user_request := "build a web app",
    context := [("search_results", .dataV "empty results"),
                ("search_performed", .boolV false)] }

/-- C1 fails on the code: with web search enabled and a web-search action that keeps
reporting `search_performed = False`, `AgenticLoop.run` never terminates.  The first
conjunct shows `is_complete` stays false after any number of loop iterations from the
start state, the second that the loop keeps selecting the `web_search` action at the
reached state (so the action is re-selected unboundedly many times within one phase),
and the third identifies the looping state after one iteration. -/
theorem claim_C1_code_bug :
    (∀ fuel k,
        (run_loop true ws_failure_stub fuel k (init_state "build a web app")).is_complete
          = false)
    ∧ (determine_next_action true c1_loop_state).2 = ActionName.web_search
    ∧ run_loop true ws_failure_stub 1 0 (init_state "build a web app") = c1_loop_state := by
  have hfix : apply_result c1_loop_state
      { search_results := some (.dataV "empty results"),
        search_performed := some (.boolV false) } = c1_loop_state := by decide
  have hkey : ∀ fuel k,
      (run_loop true ws_failure_stub fuel k c1_loop_state).is_complete = false := by
    intro fuel
    induction fuel with
    | zero => intro k; rfl
    | succ n ih =>
      intro k
      have hstep : run_loop true ws_failure_stub (n + 1) k c1_loop_state
          = run_loop true ws_failure_stub n (k + 1)
              (apply_result c1_loop_state
                { search_results := some (.dataV "empty results"),
                  search_performed := some (.boolV false) }) := rfl
      rw [hstep, hfix]
      exact ih (k + 1)
  have hfirst : ∀ k, run_loop true ws_failure_stub 1 k (init_state "build a web app")
      = c1_loop_state := by
    intro k
    have hstep : run_loop true ws_failure_stub 1 k (init_state "build a web app")
        = apply_result (init_state "build a web app")
            { search_results := some (.dataV "empty results"),
              search_performed := some (.boolV false) } := rfl
    rw [hstep]
    decide
  refine ⟨?_, by decide, hfirst 0⟩
  intro fuel k
  cases fuel with
  | zero => rfl
  | succ n =>
    have hstep : run_loop true ws_failure_stub (n + 1) k (init_state "build a web app")
        = run_loop true ws_failure_stub n (k + 1)
            (apply_result (init_state "build a web app")
              { search_results := some (.dataV "empty results"),
                search_performed := some (.boolV false) }) := rfl
    have happ : apply_result (init_state "build a web app")
        { search_results := some (.dataV "empty results"),
          search_performed := some (.boolV false) } = c1_loop_state := by decide
    rw [hstep, happ]
    exact hkey n (k + 1)

end CodingAgent
